import Mathlib

/-!
Verification development for the Face Match & Attendance Ledger engine of
the Modern Face Recognition Attendance System.

The repository ships the React frontend (`frontend/src`), whose relevant
handlers (`captureAndRecognize`, `startRecognition`, `stopRecognition`,
`DashboardView.loadData`, `RecordsView.handleSearch`) are embedded below
directly from the JavaScript source.  The backend engine (Matcher,
Attendance Ledger) described by the design document is not part of the
shipped sources; those components are modelled from the specification,
with each such definition marked `Modelled from the spec:`.

Numeric values (distances, confidences, rates) are modelled over `ℚ`;
identifiers, period keys and times-of-day over `ℕ`.
-/

namespace FaceAttendance

/-! ## Attendance Ledger (modelled from the spec, §4.3) -/

/-- Status of an attendance record: `marked` or `duplicate-suppressed`. -/
inductive RecStatus where
  | marked
  | duplicateSuppressed
deriving DecidableEq, Repr

/-- Modelled from the spec: an Attendance Record carries identity id,
calendar period key, time-of-day timestamp, match confidence and status
(§3 "Attendance Record"). -/
structure AttendanceRecord where
  identityId : Nat
  periodKey  : Nat
  timeOfDay  : Nat
  confidence : ℚ
  status     : RecStatus
deriving DecidableEq, Repr

/-- Modelled from the spec: the ledger is an append-only sequence of
attendance records. -/
abbrev Ledger := List AttendanceRecord

/-- Does record `r` count as a `marked` record for key `(iid, pk)`? -/
def isMarkedFor (iid pk : Nat) (r : AttendanceRecord) : Bool :=
  r.identityId == iid && r.periodKey == pk && r.status == RecStatus.marked

/-- The existing `marked` record for `(iid, pk)`, when present. -/
def findMarked (L : Ledger) (iid pk : Nat) : Option AttendanceRecord :=
  L.find? (isMarkedFor iid pk)

/-- Number of `marked` records for the key `(iid, pk)` in the ledger. -/
def markedCount (L : Ledger) (iid pk : Nat) : Nat :=
  (L.filter (isMarkedFor iid pk)).length

/-- Outcome of `mark` (§4.3). -/
inductive MarkOutcome where
  | Marked (r : AttendanceRecord)
  | AlreadyMarked (r : AttendanceRecord)
deriving DecidableEq, Repr

/-- The fresh record `mark` appends when no `marked` record exists. -/
def newRec (iid pk t : Nat) (conf : ℚ) : AttendanceRecord :=
  ⟨iid, pk, t, conf, RecStatus.marked⟩

/-- Modelled from the spec: `mark(identity_id, period_key, occurred_at,
confidence)` (§4.3).  The check-for-existing and create-if-absent pair is
one atomic operation, as §5 requires; here it is a single pure step on the
ledger state. -/
def mark (L : Ledger) (iid pk t : Nat) (conf : ℚ) : MarkOutcome × Ledger :=
  match findMarked L iid pk with
  | some r => (MarkOutcome.AlreadyMarked r, L)
  | none => (MarkOutcome.Marked (newRec iid pk t conf), L ++ [newRec iid pk t conf])

/-- Ledger states reachable from the empty ledger by `mark` steps. -/
inductive Reachable : Ledger → Prop where
  | nil : Reachable []
  | step (L : Ledger) (iid pk t : Nat) (conf : ℚ) :
      Reachable L → Reachable (mark L iid pk t conf).2

/-- Modelled from the spec: the interleaving of several concurrent `mark`
calls for one key.  Since the spec requires each `mark` to be atomic (§5),
any interleaving of `N` callers is some ordering of `N` atomic `mark`
steps; the list `calls` holds the `(occurred_at, confidence)` arguments in
that order. -/
def markRuns (L : Ledger) (iid pk : Nat) :
    List (Nat × ℚ) → List MarkOutcome × Ledger
  | [] => ([], L)
  | c :: cs =>
      let p := mark L iid pk c.1 c.2
      let q := markRuns p.2 iid pk cs
      (p.1 :: q.1, q.2)

lemma findMarked_nil (iid pk : Nat) : findMarked [] iid pk = none := rfl

lemma findMarked_cons (r : AttendanceRecord) (L : Ledger) (iid pk : Nat) :
    findMarked (r :: L) iid pk =
      if isMarkedFor iid pk r then some r else findMarked L iid pk := by
  by_cases h : isMarkedFor iid pk r
  · simp [findMarked, List.find?_cons, h]
  · simp [findMarked, List.find?_cons, h]

lemma markedCount_eq_zero_of_findMarked_none {L : Ledger} {iid pk : Nat}
    (h : findMarked L iid pk = none) : markedCount L iid pk = 0 := by
  induction L with
  | nil => rfl
  | cons r L ih =>
      rw [findMarked_cons] at h
      by_cases hr : isMarkedFor iid pk r
      · simp [hr] at h
      · simp [hr] at h
        simpa [markedCount, List.filter, hr] using ih h

lemma markedCount_append (L₁ L₂ : Ledger) (iid pk : Nat) :
    markedCount (L₁ ++ L₂) iid pk = markedCount L₁ iid pk + markedCount L₂ iid pk := by
  simp [markedCount, List.filter_append]

lemma isMarkedFor_newRec (iid pk t : Nat) (conf : ℚ) (iid' pk' : Nat) :
    isMarkedFor iid' pk' (newRec iid pk t conf) =
      (iid == iid' && pk == pk') := by
  simp [isMarkedFor, newRec]

/-- After appending the fresh record for a key with no prior `marked`
record, that key finds exactly the fresh record. -/
lemma findMarked_append_newRec {L : Ledger} {iid pk : Nat} (t : Nat) (conf : ℚ)
    (h : findMarked L iid pk = none) :
    findMarked (L ++ [newRec iid pk t conf]) iid pk = some (newRec iid pk t conf) := by
  induction L with
  | nil => simp [findMarked, List.find?, isMarkedFor, newRec]
  | cons r L ih =>
      rw [findMarked_cons] at h
      by_cases hr : isMarkedFor iid pk r
      · simp [hr] at h
      · simp only [List.cons_append, findMarked_cons, hr, if_false]
        simp [hr] at h
        exact ih h

/-- Once a `marked` record exists, every further `mark` in a run returns
`AlreadyMarked` of that record and leaves the ledger unchanged. -/
lemma markRuns_of_findMarked_some {L : Ledger} {iid pk : Nat} {r : AttendanceRecord}
    (h : findMarked L iid pk = some r) (cs : List (Nat × ℚ)) :
    markRuns L iid pk cs = (cs.map (fun _ => MarkOutcome.AlreadyMarked r), L) := by
  induction cs with
  | nil => rfl
  | cons c cs ih =>
      simp only [markRuns, mark, h, ih, List.map_cons]

/-- **C1.** Marking a key that already has a `marked` record creates no new
record and returns `AlreadyMarked` of the existing record; and in every
reachable ledger state each `(identity id, period)` key has at most one
`marked` record. -/
theorem mark_idempotent_and_unique :
    (∀ (L : Ledger) (iid pk t : Nat) (conf : ℚ) (r₀ : AttendanceRecord),
        findMarked L iid pk = some r₀ →
        mark L iid pk t conf = (MarkOutcome.AlreadyMarked r₀, L)) ∧
    (∀ L : Ledger, Reachable L → ∀ iid pk : Nat, markedCount L iid pk ≤ 1) := by
  constructor
  · intro L iid pk t conf r₀ h
    simp [mark, h]
  · intro L hL
    induction hL with
    | nil => intro iid pk; simp [markedCount]
    | step L iid' pk' t' conf' _ ih =>
        intro iid pk
        rcases hcase : findMarked L iid' pk' with _ | r
        · rw [mark]
          rw [hcase]
          simp only
          rw [markedCount_append]
          by_cases hkey : iid' = iid ∧ pk' = pk
          · rcases hkey with ⟨h1, h2⟩
            subst h1; subst h2
            have h0 : markedCount L iid' pk' = 0 :=
              markedCount_eq_zero_of_findMarked_none hcase
            have h1 : markedCount [newRec iid' pk' t' conf'] iid' pk' = 1 := by
              simp [markedCount, List.filter, isMarkedFor_newRec]
            rw [h0, h1]
          · have hne : (iid' == iid && pk' == pk) = false := by
              rcases Decidable.not_and_iff_or_not.mp hkey with h | h <;>
                simp [beq_eq_false_iff_ne, h]
            have : markedCount [newRec iid' pk' t' conf'] iid pk = 0 := by
              simp [markedCount, List.filter, isMarkedFor_newRec, hne]
            rw [this]
            simpa using ih iid pk
        · rw [mark]
          rw [hcase]
          exact ih iid pk

/-- Witness for `mark_idempotent_and_unique` at concrete inputs. -/
theorem mark_idempotent_and_unique_witness :
    mark [newRec 1 2 3 1] 1 2 9 1 =
      (MarkOutcome.AlreadyMarked (newRec 1 2 3 1), [newRec 1 2 3 1]) ∧
    markedCount (mark [] 1 2 3 1).2 1 2 ≤ 1 :=
  ⟨mark_idempotent_and_unique.1 [newRec 1 2 3 1] 1 2 9 1 (newRec 1 2 3 1) (by decide),
   mark_idempotent_and_unique.2 _ (Reachable.step [] 1 2 3 1 Reachable.nil) 1 2⟩

/-- **C2.** Starting from a ledger with no `marked` record for the key, any
ordering of `N ≥ 1` atomic `mark` calls for that key (the spec's §5
atomicity means every true interleaving is such an ordering) yields exactly
one `Marked` outcome — for whichever call runs first — and `N − 1`
`AlreadyMarked` outcomes all referencing that same record, which is the one
record appended to the ledger. -/
theorem mark_concurrent_exactly_once
    (L : Ledger) (iid pk : Nat) (c : Nat × ℚ) (cs : List (Nat × ℚ))
    (h : findMarked L iid pk = none) :
    markRuns L iid pk (c :: cs) =
      (MarkOutcome.Marked (newRec iid pk c.1 c.2) ::
         cs.map (fun _ => MarkOutcome.AlreadyMarked (newRec iid pk c.1 c.2)),
       L ++ [newRec iid pk c.1 c.2]) := by
  have hfind : findMarked (L ++ [newRec iid pk c.1 c.2]) iid pk =
      some (newRec iid pk c.1 c.2) := findMarked_append_newRec c.1 c.2 h
  simp only [markRuns, mark, h]
  rw [markRuns_of_findMarked_some hfind]

/-- Witness for `mark_concurrent_exactly_once`: three interleaved callers,
one `Marked`, two `AlreadyMarked` of the same record. -/
theorem mark_concurrent_exactly_once_witness :
    markRuns [] 1 2 [(9, 1), (10, 1), (11, 1)] =
      (MarkOutcome.Marked (newRec 1 2 9 1) ::
         [MarkOutcome.AlreadyMarked (newRec 1 2 9 1),
          MarkOutcome.AlreadyMarked (newRec 1 2 9 1)],
       [newRec 1 2 9 1]) := by
  have := mark_concurrent_exactly_once [] 1 2 (9, 1) [(10, 1), (11, 1)] (by decide)
  simpa using this

/-! ## Matcher (modelled from the spec, §4.2)

The spec leaves the exact distance metric open (§9); the model uses the
squared Euclidean distance over `ℚ`, which is order-equivalent to the
Euclidean distance, with `threshold` calibrated in the same units. -/

/-- Minimum of a list, `none` on the empty list. -/
def listMin {α : Type} [LinearOrder α] : List α → Option α
  | [] => none
  | x :: xs =>
      match listMin xs with
      | none => some x
      | some m => some (min x m)

lemma listMin_eq_none_iff {α : Type} [LinearOrder α] (l : List α) :
    listMin l = none ↔ l = [] := by
  cases l with
  | nil => simp [listMin]
  | cons x xs =>
      simp only [listMin]
      cases listMin xs <;> simp

lemma listMin_mem {α : Type} [LinearOrder α] {l : List α} {m : α}
    (h : listMin l = some m) : m ∈ l := by
  induction l generalizing m with
  | nil => simp [listMin] at h
  | cons x xs ih =>
      simp only [listMin] at h
      rcases hxs : listMin xs with _ | m'
      · rw [hxs] at h
        simp at h
        simp [h]
      · rw [hxs] at h
        simp at h
        rcases le_total x m' with hle | hle
        · rw [min_eq_left hle] at h
          simp [h]
        · rw [min_eq_right hle] at h
          exact List.mem_cons_of_mem x (ih (h ▸ hxs))

lemma listMin_le {α : Type} [LinearOrder α] {l : List α} {m : α}
    (h : listMin l = some m) : ∀ x ∈ l, m ≤ x := by
  induction l generalizing m with
  | nil => simp
  | cons x xs ih =>
      intro y hy
      simp only [listMin] at h
      rcases hxs : listMin xs with _ | m'
      · rw [hxs] at h
        simp at h
        have : xs = [] := (listMin_eq_none_iff xs).mp hxs
        subst this
        simp at hy
        simp [hy, h]
      · rw [hxs] at h
        simp at h
        subst h
        rcases List.mem_cons.mp hy with hy | hy
        · subst hy; exact min_le_left _ _
        · exact le_trans (min_le_right _ _) (ih hxs y hy)

/-- Squared Euclidean distance between two vectors. -/
def dist2 : List ℚ → List ℚ → ℚ
  | [], _ => 0
  | _, [] => 0
  | a :: v, b :: w => (a - b) ^ 2 + dist2 v w

/-- Modelled from the spec: an enrolled identity with its set of feature
vectors (§3 "Identity", §4.1). -/
structure Enrolled where
  identityId : Nat
  vectors    : List (List ℚ)
deriving DecidableEq, Repr

/-- Modelled from the spec: an immutable point-in-time registry view
(§4.1 `snapshot()`). -/
abbrev Snapshot := List Enrolled

/-- An identity's distance to the query: the minimum over its own vectors
(`none` when it has no vector, so it does not participate in matching). -/
def identityDist (q : List ℚ) (e : Enrolled) : Option ℚ :=
  listMin (e.vectors.map (dist2 q))

/-- Per-identity candidate list: each enrolled identity that owns at least
one vector, paired with its distance to the query. -/
def candidates (q : List ℚ) (s : Snapshot) : List (Nat × ℚ) :=
  s.filterMap (fun e => (identityDist q e).map (fun d => (e.identityId, d)))

/-- Globally minimum candidate distance. -/
def gmin (q : List ℚ) (s : Snapshot) : Option ℚ :=
  listMin ((candidates q s).map Prod.snd)

/-- Modelled from the spec: the fixed epsilon used when comparing distances
for tie detection (§4.2, e.g. `1e-6`). -/
def tieEps : ℚ := 1 / 1000000

/-- Identities whose candidate distance ties the global minimum within
`tieEps`. -/
def tiedIds (q : List ℚ) (s : Snapshot) (dmin : ℚ) : List Nat :=
  ((candidates q s).filter (fun c => c.2 ≤ dmin + tieEps)).map Prod.fst

/-- Confidence score: `1 - distance/threshold`, clamped to `[0, 1]` (§4.2). -/
def confidence (d t : ℚ) : ℚ := max 0 (min 1 (1 - d / t))

/-- Match outcome (§4.2): `Matched` carries the identity, the confidence
and the ambiguous-match diagnostic flag. -/
inductive MatchOutcome where
  | Matched (identityId : Nat) (confidence : ℚ) (ambiguous : Bool)
  | Unmatched
deriving DecidableEq, Repr

/-- Modelled from the spec: `match(query_vector, snapshot, threshold)`
(§4.2) — per-identity minimum distance, global minimum selection with
inclusive threshold boundary, epsilon tie detection with
smaller-identifier tie-break, ambiguity flagged. -/
def matchQuery (q : List ℚ) (s : Snapshot) (t : ℚ) : MatchOutcome :=
  match gmin q s with
  | none => MatchOutcome.Unmatched
  | some dmin =>
      if dmin ≤ t then
        MatchOutcome.Matched ((listMin (tiedIds q s dmin)).getD 0)
          (confidence dmin t) (decide (2 ≤ (tiedIds q s dmin).length))
      else MatchOutcome.Unmatched

/-- Matcher error (§4.2, §7). -/
inductive MatchError where
  | DimensionMismatch
deriving DecidableEq, Repr

/-- Modelled from the spec: the checked entry point rejects query vectors
whose length differs from the registry dimensionality `D` (§4.2). -/
def matchChecked (D : Nat) (q : List ℚ) (s : Snapshot) (t : ℚ) :
    Except MatchError MatchOutcome :=
  if q.length = D then Except.ok (matchQuery q s t)
  else Except.error MatchError.DimensionMismatch

lemma confidence_nonneg (d t : ℚ) : 0 ≤ confidence d t := le_max_left 0 _

lemma confidence_le_one (d t : ℚ) : confidence d t ≤ 1 :=
  max_le (by norm_num) (min_le_left 1 _)

lemma confidence_antitone {t : ℚ} (ht : 0 ≤ t) {d₁ d₂ : ℚ} (h : d₁ ≤ d₂) :
    confidence d₂ t ≤ confidence d₁ t := by
  rcases eq_or_lt_of_le ht with ht0 | htpos
  · simp [confidence, ← ht0]
  · have hdiv : d₁ / t ≤ d₂ / t := by gcongr
    exact max_le_max (le_refl 0) (min_le_min (le_refl 1) (by linarith))

lemma gmin_spec {q : List ℚ} {s : Snapshot} {dmin : ℚ}
    (h : gmin q s = some dmin) :
    (∀ c ∈ candidates q s, dmin ≤ c.2) ∧ ∃ c ∈ candidates q s, c.2 = dmin := by
  constructor
  · intro c hc
    exact listMin_le h _ (List.mem_map_of_mem Prod.snd hc)
  · rcases List.mem_map.mp (listMin_mem h) with ⟨c, hc, hsnd⟩
    exact ⟨c, hc, hsnd⟩

lemma tiedIds_mem_iff (q : List ℚ) (s : Snapshot) (dmin : ℚ) (j : Nat) :
    j ∈ tiedIds q s dmin ↔
      ∃ d, (j, d) ∈ candidates q s ∧ d ≤ dmin + tieEps := by
  constructor
  · intro hj
    rcases List.mem_map.mp hj with ⟨c, hc, hfst⟩
    rcases List.mem_filter.mp hc with ⟨hcand, hle⟩
    exact ⟨c.2, by simpa [← hfst] using hcand, by simpa using hle⟩
  · rintro ⟨d, hcand, hle⟩
    exact List.mem_map.mpr ⟨(j, d),
      List.mem_filter.mpr ⟨hcand, by simpa using hle⟩, rfl⟩

lemma tiedIds_ne_nil {q : List ℚ} {s : Snapshot} {dmin : ℚ}
    (h : gmin q s = some dmin) : tiedIds q s dmin ≠ [] := by
  rcases (gmin_spec h).2 with ⟨c, hc, hsnd⟩
  have hmem : c.1 ∈ tiedIds q s dmin :=
    (tiedIds_mem_iff q s dmin c.1).mpr
      ⟨c.2, by simpa using hc, by rw [hsnd]; simp [tieEps]⟩
  exact List.ne_nil_of_mem hmem

lemma matchQuery_eq_matched {q : List ℚ} {s : Snapshot} {t dmin : ℚ}
    (h : gmin q s = some dmin) (hle : dmin ≤ t) :
    matchQuery q s t =
      MatchOutcome.Matched ((listMin (tiedIds q s dmin)).getD 0)
        (confidence dmin t) (decide (2 ≤ (tiedIds q s dmin).length)) := by
  simp [matchQuery, h, hle]

/-- **C3.** For a length-`D` query vector: when the globally minimum
distance is at most the threshold (inclusive boundary) the outcome is
`Matched` with confidence `confidence dmin t`; when it exceeds the
threshold the outcome is `Unmatched`; and the confidence is a monotonically
decreasing function of the distance, clamped to `[0, 1]`. -/
theorem match_threshold_decision (D : Nat) (q : List ℚ) (s : Snapshot)
    (t dmin : ℚ) (hq : q.length = D) (hmin : gmin q s = some dmin) :
    (dmin ≤ t → ∃ i amb, matchChecked D q s t =
        Except.ok (MatchOutcome.Matched i (confidence dmin t) amb)) ∧
    (t < dmin → matchChecked D q s t = Except.ok MatchOutcome.Unmatched) ∧
    (0 ≤ t → ∀ d₁ d₂ : ℚ, d₁ ≤ d₂ → confidence d₂ t ≤ confidence d₁ t) ∧
    (∀ d : ℚ, 0 ≤ confidence d t ∧ confidence d t ≤ 1) := by
  refine ⟨?_, ?_, ?_, ?_⟩
  · intro hle
    refine ⟨(listMin (tiedIds q s dmin)).getD 0,
      decide (2 ≤ (tiedIds q s dmin).length), ?_⟩
    simp [matchChecked, hq, matchQuery_eq_matched hmin hle]
  · intro hgt
    simp [matchChecked, hq, matchQuery, hmin, not_le.mpr hgt]
  · intro ht d₁ d₂ h
    exact confidence_antitone ht h
  · intro d
    exact ⟨confidence_nonneg d t, confidence_le_one d t⟩

/-- Witness for `match_threshold_decision`: one identity at distance `0`,
threshold `1`, matched with confidence `1`. -/
theorem match_threshold_decision_witness :
    ([(0 : ℚ)].length = 1 ∧ gmin [0] [⟨7, [[0]]⟩] = some 0) ∧
    ((0 : ℚ) ≤ 1 → ∃ i amb, matchChecked 1 [0] [⟨7, [[0]]⟩] 1 =
        Except.ok (MatchOutcome.Matched i (confidence 0 1) amb)) := by
  have hq : ([(0 : ℚ)].length = 1) := rfl
  have hg : gmin [0] [⟨7, [[(0 : ℚ)]]⟩] = some 0 := by
    simp [gmin, candidates, identityDist, listMin, dist2]
  exact ⟨⟨hq, hg⟩,
    fun _ => (match_threshold_decision 1 [0] [⟨7, [[0]]⟩] 1 0 hq hg).1 (by norm_num)⟩

/-- **C4.** The empty snapshot always yields `Unmatched`; each enrolled
identity's candidate distance is the minimum over its own vectors; the
global minimum is a lower bound attained by some candidate; and a matched
identity's distance is within the tie-detection epsilon of every
candidate's distance (and hence of the global minimum). -/
theorem match_global_min_and_empty (D : Nat) (q : List ℚ) (s : Snapshot)
    (t : ℚ) (hq : q.length = D) :
    matchChecked D q [] t = Except.ok MatchOutcome.Unmatched ∧
    (∀ e ∈ s, e.vectors ≠ [] →
        ∃ d, (e.identityId, d) ∈ candidates q s ∧
          (∀ v ∈ e.vectors, d ≤ dist2 q v) ∧ ∃ v ∈ e.vectors, dist2 q v = d) ∧
    (∀ dmin, gmin q s = some dmin →
        (∀ c ∈ candidates q s, dmin ≤ c.2) ∧ ∃ c ∈ candidates q s, c.2 = dmin) ∧
    (∀ i conf amb, matchQuery q s t = MatchOutcome.Matched i conf amb →
        ∃ d, (i, d) ∈ candidates q s ∧ ∀ c ∈ candidates q s, d ≤ c.2 + tieEps) := by
  refine ⟨?_, ?_, ?_, ?_⟩
  · simp [matchChecked, hq, matchQuery, gmin, candidates, listMin]
  · intro e he hvec
    rcases hd : identityDist q e with _ | d
    · exfalso
      exact hvec (by simpa using (listMin_eq_none_iff _).mp hd)
    · refine ⟨d, ?_, ?_, ?_⟩
      · exact List.mem_filterMap.mpr ⟨e, he, by simp [hd]⟩
      · intro v hv
        exact listMin_le hd _ (List.mem_map_of_mem (dist2 q) hv)
      · rcases List.mem_map.mp (listMin_mem hd) with ⟨v, hv, hdv⟩
        exact ⟨v, hv, hdv⟩
  · intro dmin hmin
    exact gmin_spec hmin
  · intro i conf amb hmatch
    rcases hg : gmin q s with _ | dmin
    · simp [matchQuery, hg] at hmatch
    · by_cases hle : dmin ≤ t
      · have hi : i = (listMin (tiedIds q s dmin)).getD 0 := by
          have := hmatch.symm.trans (matchQuery_eq_matched hg hle)
          exact (MatchOutcome.Matched.injEq _ _ _ _ _ _ ▸ this).1
        rcases hlm : listMin (tiedIds q s dmin) with _ | i₀
        · exact absurd ((listMin_eq_none_iff _).mp hlm) (tiedIds_ne_nil hg)
        · have hi₀ : i = i₀ := by rw [hi, hlm]; rfl
          rcases (tiedIds_mem_iff q s dmin i₀).mp (listMin_mem hlm) with ⟨d, hcand, hdle⟩
          refine ⟨d, hi₀ ▸ hcand, ?_⟩
          intro c hc
          have := (gmin_spec hg).1 c hc
          linarith
      · simp [matchQuery, hg, hle] at hmatch

/-- Witness for `match_global_min_and_empty` at a concrete query. -/
theorem match_global_min_and_empty_witness :
    ([(0 : ℚ)].length = 1) ∧
    matchChecked 1 [(0 : ℚ)] [] 1 = Except.ok MatchOutcome.Unmatched :=
  ⟨rfl, (match_global_min_and_empty 1 [0] [⟨7, [[0]]⟩] 1 rfl).1⟩

/-- **C7.** When two or more identities tie for the minimum distance
within the fixed tie-detection epsilon, the matched identity is the
numerically smallest identifier among the tied ones, and the ambiguity is
flagged in the outcome's diagnostic field exactly when at least two
identities tie. -/
theorem match_tie_break (q : List ℚ) (s : Snapshot) (t dmin : ℚ)
    (hmin : gmin q s = some dmin) (hthr : dmin ≤ t) :
    ∃ i amb, matchQuery q s t = MatchOutcome.Matched i (confidence dmin t) amb ∧
      i ∈ tiedIds q s dmin ∧
      (∀ j ∈ tiedIds q s dmin, i ≤ j) ∧
      (amb = true ↔ 2 ≤ (tiedIds q s dmin).length) ∧
      (∀ j, j ∈ tiedIds q s dmin ↔
          ∃ d, (j, d) ∈ candidates q s ∧ d ≤ dmin + tieEps) := by
  rcases hlm : listMin (tiedIds q s dmin) with _ | i₀
  · exact absurd ((listMin_eq_none_iff _).mp hlm) (tiedIds_ne_nil hmin)
  · refine ⟨i₀, decide (2 ≤ (tiedIds q s dmin).length), ?_, ?_, ?_, ?_, ?_⟩
    · rw [matchQuery_eq_matched hmin hthr, hlm]
      rfl
    · exact listMin_mem hlm
    · exact listMin_le hlm
    · exact decide_eq_true_iff
    · exact tiedIds_mem_iff q s dmin

/-- Witness for `match_tie_break`: identities `5` and `3` both at distance
`0`; identity `3` wins and the tie is flagged. -/
theorem match_tie_break_witness :
    (gmin [0] [⟨5, [[0]]⟩, ⟨3, [[0]]⟩] = some 0 ∧ (0 : ℚ) ≤ 1) ∧
    ∃ i amb,
      matchQuery [0] [⟨5, [[0]]⟩, ⟨3, [[0]]⟩] 1 =
        MatchOutcome.Matched i (confidence 0 1) amb ∧
      i ∈ tiedIds [0] [⟨5, [[0]]⟩, ⟨3, [[0]]⟩] 0 ∧
      (∀ j ∈ tiedIds [0] [⟨5, [[0]]⟩, ⟨3, [[0]]⟩] 0, i ≤ j) ∧
      (amb = true ↔ 2 ≤ (tiedIds [0] [⟨5, [[0]]⟩, ⟨3, [[0]]⟩] 0).length) ∧
      (∀ j, j ∈ tiedIds [0] [⟨5, [[0]]⟩, ⟨3, [[0]]⟩] 0 ↔
          ∃ d, (j, d) ∈ candidates [0] [⟨5, [[0]]⟩, ⟨3, [[0]]⟩] ∧
            d ≤ 0 + tieEps) := by
  have hg : gmin [0] [⟨5, [[(0 : ℚ)]]⟩, ⟨3, [[(0 : ℚ)]]⟩] = some 0 := by
    simp [gmin, candidates, identityDist, listMin, dist2]
  exact ⟨⟨hg, by norm_num⟩,
    match_tie_break [0] [⟨5, [[0]]⟩, ⟨3, [[0]]⟩] 1 0 hg (by norm_num)⟩

/-! ## Ledger range query (modelled from the spec, §4.3) -/

/-- The record ordering used by `query`: lexicographic on
(period, time-of-day, identity id). -/
def recLE (a b : AttendanceRecord) : Prop :=
  a.periodKey < b.periodKey ∨
    (a.periodKey = b.periodKey ∧
      (a.timeOfDay < b.timeOfDay ∨
        (a.timeOfDay = b.timeOfDay ∧ a.identityId ≤ b.identityId)))

instance : DecidableRel recLE := fun a b => by unfold recLE; infer_instance

instance : IsTotal AttendanceRecord recLE := ⟨by intro a b; unfold recLE; omega⟩

instance : IsTrans AttendanceRecord recLE := ⟨by intro a b c; unfold recLE; omega⟩

/-- Membership test for the inclusive period range. -/
def inPeriodRange (ps pe : Nat) (r : AttendanceRecord) : Bool :=
  decide (ps ≤ r.periodKey ∧ r.periodKey ≤ pe)

/-- Modelled from the spec: `query(period_start, period_end)` returns the
records of the inclusive period range sorted by
(period, time-of-day, identity id) (§4.3). -/
def query (L : Ledger) (ps pe : Nat) : List AttendanceRecord :=
  List.insertionSort recLE (L.filter (inPeriodRange ps pe))

/-- **C6.** `query` returns exactly the records of the inclusive range,
sorted by (period, time-of-day, identity id); an empty range yields the
empty sequence. -/
theorem query_sorted_inclusive_range (L : Ledger) (ps pe : Nat) :
    List.Sorted recLE (query L ps pe) ∧
    List.Perm (query L ps pe) (L.filter (inPeriodRange ps pe)) ∧
    (∀ r ∈ query L ps pe, r ∈ L ∧ ps ≤ r.periodKey ∧ r.periodKey ≤ pe) ∧
    (∀ r ∈ L, ps ≤ r.periodKey → r.periodKey ≤ pe → r ∈ query L ps pe) ∧
    (pe < ps → query L ps pe = []) := by
  refine ⟨List.sorted_insertionSort recLE _, List.perm_insertionSort recLE _,
    ?_, ?_, ?_⟩
  · intro r hr
    have := List.mem_filter.mp ((List.mem_insertionSort recLE).mp hr)
    refine ⟨this.1, ?_⟩
    have := this.2
    simpa [inPeriodRange] using this
  · intro r hrL h1 h2
    exact (List.mem_insertionSort recLE).mpr
      (List.mem_filter.mpr ⟨hrL, by simp [inPeriodRange, h1, h2]⟩)
  · intro hlt
    have hnil : L.filter (inPeriodRange ps pe) = [] := by
      apply List.filter_eq_nil_iff.mpr
      intro r _
      simp [inPeriodRange]
      omega
    rw [query, hnil]
    rfl

/-- Witness for `query_sorted_inclusive_range`: a record inside the range
is returned; an empty range returns the empty sequence. -/
theorem query_sorted_inclusive_range_witness :
    newRec 1 2 3 1 ∈ query [newRec 1 2 3 1] 0 9 ∧
    query [newRec 1 2 3 1] 5 3 = [] :=
  ⟨(query_sorted_inclusive_range [newRec 1 2 3 1] 0 9).2.2.2.1
      (newRec 1 2 3 1) (by simp) (by decide) (by decide),
   (query_sorted_inclusive_range [newRec 1 2 3 1] 5 3).2.2.2.2 (by decide)⟩

/-! ## Frontend attendance view (embedded from
`frontend/src/views/AttendanceView.jsx`) -/

/-- One element of `response.results` as consumed by
`captureAndRecognize`: a display name and the `is_match` flag. -/
structure ApiResult where
  name : String
  is_match : Bool
deriving DecidableEq, Repr

/-- One row of the attendance log table. -/
structure LogEntry where
  time : String
  name : String
  status : String
deriving DecidableEq, Repr

/-- The per-face log entry built by `captureAndRecognize`:
`status: result.is_match ? "marked" : "unknown"`. -/
def entryOf (timestamp : String) (r : ApiResult) : LogEntry :=
  ⟨timestamp, r.name, if r.is_match then "marked" else "unknown"⟩

/-- The component state of `AttendanceView`: the `status` notice, the
attendance `log`, the `intervalId` React state, and the browser's
registered interval timers as (id, period-in-ms) pairs. -/
structure AttState where
  status : String
  log : List LogEntry
  intervalId : Option Nat
  timers : List (Nat × Nat)
deriving DecidableEq, Repr

/-- The response-handling step of `captureAndRecognize`: map results to
entries, prepend them to the log truncated to 20 rows when non-empty, and
set the status notice. -/
def captureAndRecognize (s : AttState) (ts : String)
    (results : List ApiResult) : AttState :=
  let entries := results.map (entryOf ts)
  { s with
    log := if entries.length > 0 then (entries ++ s.log).take 20 else s.log,
    status := "Recognition cycle complete" }

/-- `startRecognition`: a no-op when `intervalId` is set; otherwise one
immediate `captureAndRecognize` cycle, then `setInterval(captureAndRecognize,
2000)` whose fresh timer id is recorded in `intervalId`. -/
def startRecognition (s : AttState) (fresh : Nat) (ts : String)
    (results : List ApiResult) : AttState :=
  match s.intervalId with
  | some _ => s
  | none =>
      let s₁ := captureAndRecognize s ts results
      { s₁ with
        intervalId := some fresh,
        timers := (fresh, 2000) :: s₁.timers,
        status := "Recognition running" }

/-- `stopRecognition`: clears the registered interval and the
`intervalId` state when one is running, otherwise a no-op. -/
def stopRecognition (s : AttState) : AttState :=
  match s.intervalId with
  | none => s
  | some i =>
      { s with
        intervalId := none,
        timers := s.timers.filter (fun p => p.1 != i),
        status := "Recognition stopped" }

/-- The set of per-face status strings the spec claims the UI surfaces. -/
def specFaceStatus (st : String) : Prop :=
  st = "marked" ∨ st = "already marked today" ∨ st = "not recognized" ∨
    st.take 7 = "error: "

/-- **C5 (counterexample).** An unmatched face is logged with status
`"unknown"`, which is none of the statuses the claim lists, and a
duplicate-suppressed mark is not distinguishable from a first mark. -/
theorem face_status_counterexample :
    (entryOf "09:00" ⟨"Bob", false⟩).status = "unknown" ∧
    ¬ specFaceStatus "unknown" := by
  constructor
  · rfl
  · intro h
    rcases h with h | h | h | h
    · simp at h
    · simp at h
    · simp at h
    · exact absurd h (by decide)

/-- **C5 (amended).** The per-face status shown in the attendance log is
always exactly one of the two strings `"marked"` (for `is_match` results,
whether first or repeated) and `"unknown"`; no raw internal fault string is
ever used as a per-face status. -/
theorem face_status_two_valued (ts : String) (r : ApiResult) :
    (entryOf ts r).status = "marked" ∨ (entryOf ts r).status = "unknown" := by
  rcases r with ⟨name, m⟩
  cases m <;> simp [entryOf]

/-- **C8.** `startRecognition` is idempotent at the UI boundary: with a
running interval it is a no-op that registers no second timer; with no
interval it performs one recognition cycle immediately and registers
exactly one repeating timer of period 2000 ms, removed again by
`stopRecognition`. -/
theorem startRecognition_idempotent (s : AttState) (fresh : Nat)
    (ts : String) (results : List ApiResult) :
    (∀ i, s.intervalId = some i → startRecognition s fresh ts results = s) ∧
    (s.intervalId = none →
      (startRecognition s fresh ts results).intervalId = some fresh ∧
      (startRecognition s fresh ts results).log =
        (captureAndRecognize s ts results).log ∧
      (startRecognition s fresh ts results).timers = (fresh, 2000) :: s.timers ∧
      (stopRecognition (startRecognition s fresh ts results)).intervalId = none ∧
      (stopRecognition (startRecognition s fresh ts results)).timers =
        s.timers.filter (fun p => p.1 != fresh)) := by
  constructor
  · intro i hi
    simp [startRecognition, hi]
  · intro h
    refine ⟨?_, ?_, ?_, ?_, ?_⟩ <;>
      simp [startRecognition, stopRecognition, captureAndRecognize, h,
        List.filter]

/-- Witness for `startRecognition_idempotent` at a concrete state. -/
theorem startRecognition_idempotent_witness :
    startRecognition ⟨"Recognition running", [], some 7, [(7, 2000)]⟩ 9 "t" [] =
      ⟨"Recognition running", [], some 7, [(7, 2000)]⟩ ∧
    (startRecognition ⟨"Idle", [], none, []⟩ 9 "t" []).intervalId = some 9 :=
  ⟨(startRecognition_idempotent ⟨"Recognition running", [], some 7, [(7, 2000)]⟩
      9 "t" []).1 7 rfl,
   ((startRecognition_idempotent ⟨"Idle", [], none, []⟩ 9 "t" []).2 rfl).1⟩

/-- **C9.** Each recognition cycle keeps the displayed log at no more than
20 entries, places the newest cycle's entries first, and a cycle with zero
results leaves the log unchanged. -/
theorem log_bounded_newest_first (s : AttState) (ts : String)
    (results : List ApiResult) :
    (s.log.length ≤ 20 → (captureAndRecognize s ts results).log.length ≤ 20) ∧
    (results = [] → (captureAndRecognize s ts results).log = s.log) ∧
    (results ≠ [] →
      (captureAndRecognize s ts results).log =
        (results.map (entryOf ts) ++ s.log).take 20 ∧
      (captureAndRecognize s ts results).log.take (min results.length 20) =
        (results.map (entryOf ts)).take 20) := by
  refine ⟨?_, ?_, ?_⟩
  · intro hlen
    by_cases h : results = []
    · simpa [captureAndRecognize, h] using hlen
    · have : 0 < results.length := List.length_pos.mpr h
      simp only [captureAndRecognize]
      rw [if_pos (by simpa using this)]
      exact le_trans (List.length_take_le 20 _) (le_refl 20)
  · intro h
    simp [captureAndRecognize, h]
  · intro h
    have hpos : 0 < results.length := List.length_pos.mpr h
    constructor
    · simp only [captureAndRecognize]
      rw [if_pos (by simpa using hpos)]
    · simp only [captureAndRecognize]
      rw [if_pos (by simpa using hpos)]
      have hmap : (results.map (entryOf ts)).length = results.length :=
        List.length_map _ _
      rw [List.take_take]
      have h1 : min (min results.length 20) 20 = min results.length 20 := by
        omega
      rw [h1, List.take_append_eq_append_take, hmap]
      have h2 : min results.length 20 - results.length = 0 := by omega
      rw [h2, List.take_zero, List.append_nil]
      apply List.take_eq_take.mpr
      rw [hmap]
      omega

/-- Witness for `log_bounded_newest_first` at a concrete cycle. -/
theorem log_bounded_newest_first_witness :
    (captureAndRecognize ⟨"Idle", [], none, []⟩ "t" []).log = [] ∧
    (captureAndRecognize ⟨"Idle", [], none, []⟩ "t"
        [⟨"Ann", true⟩]).log.length ≤ 20 :=
  ⟨(log_bounded_newest_first ⟨"Idle", [], none, []⟩ "t" []).2.1 rfl,
   (log_bounded_newest_first ⟨"Idle", [], none, []⟩ "t" [⟨"Ann", true⟩]).1
      (by simp)⟩

/-! ## Dashboard statistics (embedded from
`frontend/src/views/DashboardView.jsx`) -/

/-- The four dashboard statistics. -/
structure DashStats where
  total : Nat
  present : Nat
  rate : ℚ
  pending : Int
deriving DecidableEq, Repr

/-- `DashboardView.loadData`: only the lengths of the fetched student and
attendance arrays feed the statistics; the rate guards against division by
zero and the pending count is clamped at zero. -/
def dashboardStats (students attendance : List String) : DashStats :=
  let total := students.length
  let present := attendance.length
  { total := total,
    present := present,
    rate := if total > 0 then ((present : ℚ) / (total : ℚ)) * 100 else 0,
    pending := max ((total : Int) - (present : Int)) 0 }

/-- **C10.** The dashboard statistics are total: an empty student list
gives attendance rate `0` (not an undefined division), and the pending
count is `max(total − present, 0)`, never negative. -/
theorem dashboard_stats_total (students attendance : List String) :
    (students = [] → (dashboardStats students attendance).rate = 0) ∧
    0 ≤ (dashboardStats students attendance).pending ∧
    (dashboardStats students attendance).pending =
      max ((students.length : Int) - (attendance.length : Int)) 0 ∧
    ((dashboardStats students attendance).pending = 0 ∨
      (dashboardStats students attendance).pending =
        (students.length : Int) - (attendance.length : Int)) := by
  refine ⟨?_, ?_, rfl, ?_⟩
  · intro h
    simp [dashboardStats, h]
  · exact le_max_right _ 0
  · rcases le_total ((students.length : Int) - (attendance.length : Int)) 0
      with h | h
    · left
      simp [dashboardStats, max_eq_right h]
    · right
      simp [dashboardStats, max_eq_left h]

/-- Witness for `dashboard_stats_total`: no students, one attendance row. -/
theorem dashboard_stats_total_witness :
    (dashboardStats [] ["row"]).rate = 0 ∧
    0 ≤ (dashboardStats [] ["row"]).pending :=
  ⟨(dashboard_stats_total [] ["row"]).1 rfl,
   (dashboard_stats_total [] ["row"]).2.1⟩

end FaceAttendance
